import Mathlib

/-!
# Formal model of the todo-list backend

A shallow embedding of the Express/Sequelize backend controllers
(`todoController.ts`, the category controller, and the Sequelize model
definitions) as pure functions over an explicit store, together with
theorems about the list query (filtering, pagination, ordering) and the
mutation operations (create/update/delete/toggle for tasks and
categories).

Conventions of the embedding:
* the database tables `Todos` and `Categories` are lists of records, kept
  in insertion order (autoincrement ids are strictly increasing along the
  list);
* query-string parameters arrive parsed: `page`/`limit` as naturals,
  `category` as a parsed id, `search` with its default `''` already
  applied, `priority`/`completed` as optional strings (absent = `none`);
  JavaScript string truthiness (`''` is falsy) is modelled explicitly
  where the controller tests it;
* `Op.iLike '%s%'` is modelled as case-insensitive substring occurrence;
* dates are abstracted as naturals (only ordering of `createdAt` matters);
* a controller's 404/400 early returns are modelled with `Except`.
-/

namespace TodoApp

/-- A row of the `Todos` table (Sequelize model `Todo`). -/
structure Task where
  id : Nat
  title : String
  description : Option String
  completed : Bool
  priority : String
  due_date : Option Nat
  category_id : Option Nat
  createdAt : Nat
deriving DecidableEq

/-- A row of the `Categories` table (Sequelize model `Category`). -/
structure Category where
  id : Nat
  name : String
  color : String
deriving DecidableEq

/-- The persistent state the controllers act on: both tables. -/
structure Store where
  todos : List Task
  categories : List Category
deriving DecidableEq

/-- Error outcomes the controllers signal with early returns:
404 `Todo/Category not found` and 400 `already exists`. -/
inductive ApiError where
  | notFound
  | duplicate
deriving DecidableEq

instance {e a : Type} [DecidableEq e] [DecidableEq a] : DecidableEq (Except e a)
  | .error x, .error y =>
      if h : x = y then .isTrue (by rw [h]) else .isFalse (by intro hc; cases hc; exact h rfl)
  | .ok x, .ok y =>
      if h : x = y then .isTrue (by rw [h]) else .isFalse (by intro hc; cases hc; exact h rfl)
  | .error _, .ok _ => .isFalse (by intro hc; cases hc)
  | .ok _, .error _ => .isFalse (by intro hc; cases hc)

/-- `hay` starts with `needle` (character lists). -/
def beginsWith : List Char → List Char → Bool
  | _, [] => true
  | [], _ :: _ => false
  | c :: cs, d :: ds => c == d && beginsWith cs ds

/-- `needle` occurs as a contiguous substring of `hay` (character lists). -/
def containsChars : List Char → List Char → Bool
  | [], needle => needle.isEmpty
  | c :: cs, needle => beginsWith (c :: cs) needle || containsChars cs needle

/-- Character-wise lowercasing of a string's characters. -/
def lowerChars (l : List Char) : List Char := l.map Char.toLower

/-- Model of SQL `col ILIKE '%needle%'`: case-insensitive substring test. -/
def iLike (needle hay : String) : Bool :=
  containsChars (lowerChars hay.data) (lowerChars needle.data)

/-- JavaScript `x || d` on an optional string: the default is taken when
the value is absent or the empty string (falsy). -/
def jsOrStr (x : Option String) (d : String) : String :=
  match x with
  | some v => if v = "" then d else v
  | none => d

/-- The parse of the `completed` query parameter in `getTodos`:
`completed === 'true'`. -/
def parseBoolStr (s : String) : Bool := s == "true"

/-- The filter-relevant query parameters of `getTodos`, after wire
parsing: `search` has its default `''` applied, `category` is a parsed
id, `priority` and `completed` are the raw optional strings. -/
structure ListQuery where
  search : String
  category : Option Nat
  priority : Option String
  completed : Option String
deriving DecidableEq

/-- The `where` object built by `getTodos` (todoController.ts lines
18-41), as a predicate on a `Task` row: `if (search)` adds the
title/description `Op.or` of `Op.iLike`s; `if (category)` adds
`category_id` equality; `if (priority)` adds `priority` equality (a
supplied empty string is falsy and adds nothing); `if (completed !==
undefined)` adds `completed === 'true'` equality.  A `NULL` description
does not satisfy `ILIKE`. -/
def matchesWhere (q : ListQuery) (t : Task) : Bool :=
  (if q.search = "" then true
   else iLike q.search t.title ||
     (match t.description with
      | some d => iLike q.search d
      | none => false)) &&
  (match q.category with
   | some c => t.category_id == some c
   | none => true) &&
  (match q.priority with
   | some p => if p = "" then true else t.priority == p
   | none => true) &&
  (match q.completed with
   | some s => t.completed == parseBoolStr s
   | none => true)

/-- The search dimension of the spec contract: the case-insensitive
substring occurs in `title` or in `description`. -/
def searchMatches (needle : String) (t : Task) : Prop :=
  iLike needle t.title = true ∨
    ∃ d, t.description = some d ∧ iLike needle d = true

/-- One step of the insertion sort the embedding uses to realize
`order: [['createdAt', 'DESC']]`: `x` is placed before the first element
whose `createdAt` is at most `x`'s.  This yields one concrete enumeration
permitted by the `ORDER BY`; the SQL itself fixes no order among rows
with equal `createdAt` (see `ordByCreatedDesc`). -/
def insertByCreated (x : Task) : List Task → List Task
  | [] => [x]
  | y :: ys =>
      if y.createdAt ≤ x.createdAt then x :: y :: ys
      else y :: insertByCreated x ys

/-- One concrete enumeration satisfying `ORDER BY createdAt DESC`, used
as the executable representative for the count and window arithmetic
(which is insensitive to the order among `createdAt` ties);
`ordByCreatedDesc` describes the full set of enumerations the query
permits. -/
def sortByCreatedDesc : List Task → List Task
  | [] => []
  | t :: ts => insertByCreated t (sortByCreatedDesc ts)

/-- The `pagination` object `getTodos` returns (todoController.ts lines
58-63). -/
structure Pagination where
  total : Nat
  current_page : Nat
  per_page : Nat
  total_pages : Nat

/-- The successful response body of `getTodos`: the fetched rows and the
pagination metadata. -/
structure ListResult where
  data : List Task
  pagination : Pagination

/-- `Math.ceil(count / limit)` (todoController.ts line 62): JavaScript
number division is exact here, so it is rational division followed by the
ceiling. -/
def jsCeilDiv (count limit : Nat) : Nat :=
  ⌈(count : ℚ) / (limit : ℚ)⌉₊

/-- The list operation `getTodos` (todoController.ts lines 5-72):
`offset = (page - 1) * limit`; `findAndCountAll` counts all rows matching
the `where` predicate, sorts them by `createdAt` descending and returns
the window `offset`/`limit` of that ordering; the response carries the
rows and `{ total, current_page, per_page, total_pages }`. -/
def getTodos (s : Store) (q : ListQuery) (page limit : Nat) : ListResult :=
  let offset := (page - 1) * limit
  let matching := sortByCreatedDesc (s.todos.filter (matchesWhere q))
  let count := matching.length
  { data := (matching.drop offset).take limit
    pagination :=
      { total := count
        current_page := page
        per_page := limit
        total_pages := jsCeilDiv count limit } }

/-- The sort order the spec promises for returned rows: strictly later
creation first, ties broken by ascending id. -/
def listOrd (a b : Task) : Prop :=
  b.createdAt < a.createdAt ∨ (a.createdAt = b.createdAt ∧ a.id < b.id)

instance (a b : Task) : Decidable (listOrd a b) := by
  unfold listOrd
  exact inferInstance

/-- The result orderings `order: [['createdAt', 'DESC']]` permits: an
enumeration of the matching rows that is non-increasing in `createdAt`.
The SQL constrains nothing else — in particular rows with equal
`createdAt` may come back in any relative order. -/
def ordByCreatedDesc (l m : List Task) : Prop :=
  l.Perm m ∧ m.Pairwise (fun a b => b.createdAt ≤ a.createdAt)

/-- `items` is a possible `data` of the list operation: the
`offset`/`limit` window of some enumeration the `ORDER BY` permits. -/
def isListResultOf (s : Store) (q : ListQuery) (page limit : Nat)
    (items : List Task) : Prop :=
  ∃ m, ordByCreatedDesc (s.todos.filter (matchesWhere q)) m ∧
    items = (m.drop ((page - 1) * limit)).take limit

/-- The autoincrement primary key the store assigns to a new `Todos` row. -/
def nextTodoId (s : Store) : Nat :=
  (s.todos.map Task.id).foldr max 0 + 1

/-- The autoincrement primary key the store assigns to a new
`Categories` row. -/
def nextCategoryId (s : Store) : Nat :=
  (s.categories.map Category.id).foldr max 0 + 1

/-- The request body `createTodo` destructures
(`{ title, description, category_id, priority, due_date }`); a
`completed` member may be present in the body but the controller never
reads it. -/
structure TodoCreate where
  title : String
  description : Option String
  category_id : Option Nat
  priority : Option String
  due_date : Option Nat
  completed : Option Bool
deriving DecidableEq

/-- `createTodo` (todoController.ts lines 102-135): inserts a row with
`priority: priority || 'medium'`, `due_date: due_date || null`,
`completed: false`; `now` is the `createdAt` timestamp the store assigns.
Returns the new store and the created row. -/
def createTodo (s : Store) (b : TodoCreate) (now : Nat) : Store × Task :=
  let todo : Task :=
    { id := nextTodoId s
      title := b.title
      description := b.description
      completed := false
      priority := jsOrStr b.priority "medium"
      due_date := b.due_date
      category_id := b.category_id
      createdAt := now }
  ({ s with todos := s.todos ++ [todo] }, todo)

/-- The request body `updateTodo` destructures: each member is absent
(`undefined`, outer `none`) or present with a value; `description`,
`category_id` and `due_date` may be present as `null` (inner `none`). -/
structure TodoUpdate where
  title : Option String
  description : Option (Option String)
  category_id : Option (Option Nat)
  priority : Option String
  due_date : Option (Option Nat)
  completed : Option Bool
deriving DecidableEq

/-- The merge `updateTodo` performs on the found row (todoController.ts
lines 151-158): each `x !== undefined ? x : todo.x` ternary keeps the
stored value exactly when the member is absent. -/
def applyTodoUpdate (t : Task) (u : TodoUpdate) : Task :=
  { t with
    title := u.title.getD t.title
    description := u.description.getD t.description
    category_id := u.category_id.getD t.category_id
    priority := u.priority.getD t.priority
    due_date := u.due_date.getD t.due_date
    completed := u.completed.getD t.completed }

/-- `updateTodo` (todoController.ts lines 137-180): `findByPk` then 404
when absent, otherwise the merge update of that row. -/
def updateTodo (s : Store) (id : Nat) (u : TodoUpdate) : Except ApiError Store :=
  match s.todos.find? (fun t => t.id == id) with
  | none => .error .notFound
  | some _ =>
      .ok { s with
            todos := s.todos.map (fun t => if t.id == id then applyTodoUpdate t u else t) }

/-- The row rewrite of `toggleTodoComplete`:
`update({ completed: !todo.completed })` on the row with the given pk. -/
def toggleRow (id : Nat) (t : Task) : Task :=
  if t.id == id then { t with completed := !t.completed } else t

/-- `toggleTodoComplete` (todoController.ts lines 209-243): `findByPk`
then 404 when absent, otherwise `update({ completed: !todo.completed })`. -/
def toggleTodoComplete (s : Store) (id : Nat) : Except ApiError Store :=
  match s.todos.find? (fun t => t.id == id) with
  | none => .error .notFound
  | some _ =>
      .ok { s with todos := s.todos.map (toggleRow id) }

/-- `createCategory` (category controller lines 71-101): a
`findOne({ where: { name } })` hit returns 400 `Category already exists`
before anything is stored; otherwise a row is inserted with
`color: color || '#1890ff'`. -/
def createCategory (s : Store) (name : String) (color : Option String) :
    Except ApiError Store :=
  match s.categories.find? (fun c => c.name == name) with
  | some _ => .error .duplicate
  | none =>
      .ok { s with
            categories := s.categories ++
              [{ id := nextCategoryId s, name := name, color := jsOrStr color "#1890ff" }] }

/-- The merge `updateCategory` performs on the found row (category
controller lines 127-130): `name: name || category.name`,
`color: color || category.color`. -/
def applyCategoryUpdate (c : Category) (name color : Option String) : Category :=
  { c with name := jsOrStr name c.name, color := jsOrStr color c.color }

/-- `updateCategory` (category controller lines 103-144): 404 when the id
is absent; when `name` is truthy and differs from the stored name, a
`findOne({ where: { name } })` hit returns 400 before any write;
otherwise the merge update is applied. -/
def updateCategory (s : Store) (cid : Nat) (name color : Option String) :
    Except ApiError Store :=
  match s.categories.find? (fun c => c.id == cid) with
  | none => .error .notFound
  | some cat =>
      let dup : Bool :=
        match name with
        | some n =>
            if n ≠ "" ∧ n ≠ cat.name then
              (s.categories.find? (fun c => c.name == n)).isSome
            else false
        | none => false
      if dup then .error .duplicate
      else
        .ok { s with
              categories := s.categories.map (fun c =>
                if c.id == cid then applyCategoryUpdate c name color else c) }

/-- `deleteCategory` (category controller lines 146-177): 404 when the id
is absent; otherwise `Todo.update({ category_id: null }, { where:
{ category_id: id } })` followed by `category.destroy()`, in one request. -/
def deleteCategory (s : Store) (cid : Nat) : Except ApiError Store :=
  match s.categories.find? (fun c => c.id == cid) with
  | none => .error .notFound
  | some _ =>
      .ok { todos := s.todos.map (fun t =>
              if t.category_id == some cid then { t with category_id := none } else t)
            categories := s.categories.filter (fun c => !(c.id == cid)) }

/-- Modelled from the spec: the foreign-key constraint on
`Todos.category_id`.  The sequelize migrations that create the tables are
not part of the source tree here; §3 of the spec ("Every Task's
`category_id`, if non-null, must reference an existing Category at time
of creation/update") and §6 ("Persistence collaborator: durable
relational storage providing ... foreign-key nullification on delete")
place referential integrity with the store, so the store accepts a
written `category_id` only when it is null or matches an existing
`Categories` row. -/
def fkAccepts (s : Store) (cid : Option Nat) : Bool :=
  match cid with
  | none => true
  | some c => s.categories.any (fun cat => cat.id == c)

/-- Modelled from the spec: `createTodo` as executed against the store
with the foreign-key constraint of `fkAccepts`; a violating insert is
rejected (the controller surfaces it as its 400 catch branch, modelled as
`none`). -/
def createTodoFk (s : Store) (b : TodoCreate) (now : Nat) : Option (Store × Task) :=
  if fkAccepts s b.category_id then some (createTodo s b now) else none

/-- Modelled from the spec: `updateTodo` as executed against the store
with the foreign-key constraint of `fkAccepts` applied to the merged
row's `category_id`. -/
def updateTodoFk (s : Store) (id : Nat) (u : TodoUpdate) :
    Option (Except ApiError Store) :=
  match s.todos.find? (fun t => t.id == id) with
  | none => some (.error .notFound)
  | some t =>
      if fkAccepts s (applyTodoUpdate t u).category_id then some (updateTodo s id u)
      else none

/-! ## Sample data for witnessing the theorems on concrete inputs -/

/-- A sample task used to instantiate theorems. -/
def sampleTask : Task :=
  { id := 1, title := "Buy milk", description := some "from the store"
    completed := true, priority := "high", due_date := none
    category_id := some 1, createdAt := 5 }

/-- A second sample task sharing `createdAt` with `sampleTask`. -/
def sampleTask2 : Task :=
  { id := 2, title := "Ship report", description := none
    completed := false, priority := "medium", due_date := none
    category_id := some 1, createdAt := 5 }

/-- A third sample task, created later than the other two. -/
def sampleTask3 : Task :=
  { id := 3, title := "other", description := none
    completed := false, priority := "low", due_date := none
    category_id := none, createdAt := 7 }

/-- A sample store: three tasks in insertion order and one category. -/
def sampleStore : Store :=
  { todos := [sampleTask, sampleTask2, sampleTask3]
    categories := [{ id := 1, name := "Work", color := "#0000ff" }] }

/-- The empty list query: every filter parameter at its default. -/
def emptyQuery : ListQuery :=
  { search := "", category := none, priority := none, completed := none }

/-- A sample update payload: only `priority` supplied. -/
def samplePatch : TodoUpdate :=
  { title := none, description := none, category_id := none
    priority := some "low", due_date := none, completed := none }

/-- `sampleStore` after `samplePatch` is applied to task 1. -/
def samplePatchedStore : Store :=
  { todos := [{ sampleTask with priority := "low" }, sampleTask2, sampleTask3]
    categories := sampleStore.categories }

/-- `sampleStore` after toggling task 1. -/
def sampleToggledStore : Store :=
  { todos := [{ sampleTask with completed := false }, sampleTask2, sampleTask3]
    categories := sampleStore.categories }

/-- `sampleStore` after deleting category 1: both referencing tasks are
nulled and the category list is empty. -/
def sampleCascadeStore : Store :=
  { todos := [{ sampleTask with category_id := none },
              { sampleTask2 with category_id := none }, sampleTask3]
    categories := [] }

/-- A sample create payload referencing category 1. -/
def sampleCreate : TodoCreate :=
  { title := "new", description := none, category_id := some 1
    priority := none, due_date := none, completed := none }

/-- The task `sampleCreate` inserts into `sampleStore` at time 9. -/
def sampleCreatedTask : Task :=
  { id := 4, title := "new", description := none, completed := false
    priority := "medium", due_date := none, category_id := some 1, createdAt := 9 }

/-- `sampleStore` after the insert of `sampleCreatedTask`. -/
def sampleCreatedStore : Store :=
  { todos := sampleStore.todos ++ [sampleCreatedTask]
    categories := sampleStore.categories }

/-! ## Theorems -/

/-- C1: the `where` predicate `getTodos` builds matches a task iff every
supplied filter matches it — `search` (present and non-empty) iff the
case-insensitive substring occurs in title or description, `category` and
`priority` by exact equality, `completed` (when present) by equality with
the boolean parsed from its string, absent filters impose no constraint —
and with no filters present every task matches.  The hypothesis
restricts `priority` to genuine enum inputs (the empty string is not one;
JavaScript would treat it as absent). -/
theorem filter_builder_conjunctive (q : ListQuery) (t : Task)
    (hp : ∀ p, q.priority = some p → p ≠ "") :
    (matchesWhere q t = true ↔
      ((q.search ≠ "" → searchMatches q.search t) ∧
       (∀ c, q.category = some c → t.category_id = some c) ∧
       (∀ p, q.priority = some p → t.priority = p) ∧
       (∀ b, q.completed = some b → t.completed = parseBoolStr b))) ∧
    (q.search = "" → q.category = none → q.priority = none → q.completed = none →
      matchesWhere q t = true) := by
  obtain ⟨se, cat, pri, comp⟩ := q
  simp only at hp ⊢
  constructor
  · have hA : ((if se = "" then true
        else iLike se t.title || (match t.description with
          | some d => iLike se d
          | none => false)) = true) ↔ (se ≠ "" → searchMatches se t) := by
      by_cases hse : se = ""
      · simp [hse]
      · cases hd : t.description <;> simp [hse, searchMatches, hd]
    have hB : ((match cat with
        | some c => t.category_id == some c
        | none => true) = true) ↔ (∀ c, cat = some c → t.category_id = some c) := by
      cases cat <;> simp
    have hC : ∀ pr : Option String, (∀ p, pr = some p → p ≠ "") →
        (((match pr with
          | some p => if p = "" then true else t.priority == p
          | none => true) = true) ↔ (∀ p, pr = some p → t.priority = p)) := by
      intro pr hpr
      cases pr with
      | none => simp
      | some p =>
          have hne : p ≠ "" := hpr p rfl
          simp [hne]
    have hD : ((match comp with
        | some s => t.completed == parseBoolStr s
        | none => true) = true) ↔ (∀ b, comp = some b → t.completed = parseBoolStr b) := by
      cases comp <;> simp
    simp only [matchesWhere, Bool.and_eq_true]
    rw [hA, hB, hC pri hp, hD]
    tauto
  · intro h1 h2 h3 h4
    subst h1; subst h2; subst h3; subst h4
    simp [matchesWhere]

/-- Inserting adds one to the length. -/
lemma length_insertByCreated (x : Task) (l : List Task) :
    (insertByCreated x l).length = l.length + 1 := by
  induction l with
  | nil => rfl
  | cons y ys ih =>
      by_cases h : y.createdAt ≤ x.createdAt <;>
        simp [insertByCreated, h, ih]

/-- Sorting preserves the length. -/
lemma length_sortByCreatedDesc (l : List Task) :
    (sortByCreatedDesc l).length = l.length := by
  induction l with
  | nil => rfl
  | cons t ts ih => simp [sortByCreatedDesc, length_insertByCreated, ih]

/-- `Math.ceil` over exact rational division agrees with natural-number
ceiling division when the divisor is positive. -/
lemma jsCeilDiv_eq_ceilDiv (a b : Nat) (hb : 0 < b) : jsCeilDiv a b = a ⌈/⌉ b := by
  have hb' : (0:ℚ) < b := by exact_mod_cast hb
  unfold jsCeilDiv
  refine eq_of_forall_ge_iff fun n => ?_
  rw [Nat.ceil_le, div_le_iff₀ hb', ceilDiv_le_iff_le_mul hb, mul_comm]
  exact_mod_cast Iff.rfl

/-- An element of an insertion result is the inserted element or from the
original list. -/
lemma mem_insertByCreated {x y : Task} {l : List Task}
    (h : y ∈ insertByCreated x l) : y = x ∨ y ∈ l := by
  induction l with
  | nil => simpa [insertByCreated] using h
  | cons z zs ih =>
      by_cases hz : z.createdAt ≤ x.createdAt
      · simp only [insertByCreated, if_pos hz] at h
        rcases List.mem_cons.mp h with rfl | h'
        · exact Or.inl rfl
        · exact Or.inr h'
      · simp only [insertByCreated, if_neg hz] at h
        rcases List.mem_cons.mp h with rfl | h'
        · exact Or.inr (List.mem_cons_self _ _)
        · rcases ih h' with h'' | h''
          · exact Or.inl h''
          · exact Or.inr (List.mem_cons_of_mem _ h'')

/-- Insertion preserves enumerations that are non-increasing in
`createdAt`. -/
lemma sorted_insertByCreated {x : Task} {l : List Task}
    (hl : l.Pairwise (fun a b => b.createdAt ≤ a.createdAt)) :
    (insertByCreated x l).Pairwise (fun a b => b.createdAt ≤ a.createdAt) := by
  induction l with
  | nil => simp [insertByCreated]
  | cons y ys ih =>
      rcases List.pairwise_cons.mp hl with ⟨hy, hys⟩
      by_cases h : y.createdAt ≤ x.createdAt
      · simp only [insertByCreated, if_pos h]
        refine List.pairwise_cons.mpr ⟨?_, hl⟩
        intro z hz
        rcases List.mem_cons.mp hz with rfl | hz'
        · exact h
        · exact le_trans (hy z hz') h
      · simp only [insertByCreated, if_neg h]
        push_neg at h
        refine List.pairwise_cons.mpr ⟨?_, ih hys⟩
        intro z hz
        rcases mem_insertByCreated hz with rfl | hz'
        · exact le_of_lt h
        · exact hy z hz'

/-- Inserting is, up to permutation, consing. -/
lemma perm_insertByCreated (x : Task) (l : List Task) :
    (insertByCreated x l).Perm (x :: l) := by
  induction l with
  | nil => exact List.Perm.refl _
  | cons y ys ih =>
      by_cases h : y.createdAt ≤ x.createdAt
      · simp only [insertByCreated, if_pos h]
        exact List.Perm.refl _
      · simp only [insertByCreated, if_neg h]
        exact (ih.cons y).trans (List.Perm.swap x y ys)

/-- The executable enumeration is a permutation of the input rows. -/
lemma perm_sortByCreatedDesc (l : List Task) : (sortByCreatedDesc l).Perm l := by
  induction l with
  | nil => exact List.Perm.refl _
  | cons t ts ih =>
      exact (perm_insertByCreated t (sortByCreatedDesc ts)).trans (ih.cons t)

/-- The executable enumeration is non-increasing in `createdAt`. -/
lemma sorted_sortByCreatedDesc (l : List Task) :
    (sortByCreatedDesc l).Pairwise (fun a b => b.createdAt ≤ a.createdAt) := by
  induction l with
  | nil => simp [sortByCreatedDesc]
  | cons t ts ih => exact sorted_insertByCreated ih

/-- Toggling a row keeps its id. -/
lemma toggleRow_id (id : Nat) (t : Task) : (toggleRow id t).id = t.id := by
  unfold toggleRow
  split <;> rfl

/-- Toggling a row twice restores it exactly. -/
lemma toggleRow_involutive (id : Nat) (t : Task) : toggleRow id (toggleRow id t) = t := by
  unfold toggleRow
  by_cases h : t.id == id
  · rw [if_pos h, if_pos h]
    simp only [Bool.not_not]
  · rw [if_neg h, if_neg h]

/-- Witness for C1: with all four filters supplied
(`search="MILK"`, `category=1`, `priority="high"`, `completed="true"`),
the hypothesis holds and `sampleTask` satisfies the built predicate. -/
theorem filter_builder_conjunctive_witness :
    (∀ p, (ListQuery.mk "MILK" (some 1) (some "high") (some "true")).priority = some p →
      p ≠ "") ∧
    matchesWhere (ListQuery.mk "MILK" (some 1) (some "high") (some "true")) sampleTask
      = true := by
  constructor
  · intro p h
    cases h
    decide
  · exact (filter_builder_conjunctive _ sampleTask
      (by intro p h; cases h; decide)).1.mpr
      ⟨fun _ => Or.inl (by decide),
       fun c h => by cases h; decide,
       fun p h => by cases h; decide,
       fun b h => by cases h; decide⟩

/-- C2: for positive `page` and `pageSize` the list operation returns the
window at `offset = (page - 1) * pageSize` with `limit = pageSize`
(reported back as `per_page`), at most `pageSize` rows are returned, and
a window starting at or beyond the matching-row count yields `[]`
without an error. -/
theorem pager_window (s : Store) (q : ListQuery) (page limit : Nat)
    (hpage : 1 ≤ page) (hlimit : 1 ≤ limit) :
    (getTodos s q page limit).data
        = ((sortByCreatedDesc (s.todos.filter (matchesWhere q))).drop
            ((page - 1) * limit)).take limit ∧
    (getTodos s q page limit).pagination.per_page = limit ∧
    (getTodos s q page limit).data.length ≤ limit ∧
    ((getTodos s q page limit).pagination.total ≤ (page - 1) * limit →
      (getTodos s q page limit).data = []) := by
  clear hpage hlimit
  refine ⟨rfl, rfl, ?_, ?_⟩
  · simp only [getTodos, List.length_take]
    exact min_le_left _ _
  · intro h
    simp only [getTodos] at h ⊢
    rw [List.drop_eq_nil_of_le h, List.take_nil]

/-- Witness for C2 at `page = 2`, `pageSize = 10` on the sample store. -/
theorem pager_window_witness :
    1 ≤ 2 ∧ 1 ≤ 10 ∧ (getTodos sampleStore emptyQuery 2 10).data.length ≤ 10 :=
  ⟨by decide, by decide,
    (pager_window sampleStore emptyQuery 2 10 (by decide) (by decide)).2.2.1⟩

/-- C3: `total` is the count of all rows matching the predicate ignoring
the window, `total_pages = ⌈total / per_page⌉`, and an empty match gives
`total_pages = 0` together with `items = []`. -/
theorem pagination_metadata (s : Store) (q : ListQuery) (page limit : Nat)
    (hlimit : 1 ≤ limit) :
    (getTodos s q page limit).pagination.total
        = (s.todos.filter (matchesWhere q)).length ∧
    (getTodos s q page limit).pagination.total_pages
        = (getTodos s q page limit).pagination.total ⌈/⌉
          (getTodos s q page limit).pagination.per_page ∧
    ((getTodos s q page limit).pagination.total = 0 →
      (getTodos s q page limit).pagination.total_pages = 0 ∧
      (getTodos s q page limit).data = []) := by
  refine ⟨?_, ?_, ?_⟩
  · simp only [getTodos, length_sortByCreatedDesc]
  · simp only [getTodos]
    exact jsCeilDiv_eq_ceilDiv _ _ hlimit
  · intro h
    simp only [getTodos] at h ⊢
    constructor
    · rw [h]
      simp [jsCeilDiv]
    · rw [List.eq_nil_of_length_eq_zero h, List.drop_nil, List.take_nil]

/-- Witness for C3 on the sample store with `pageSize = 2`. -/
theorem pagination_metadata_witness :
    1 ≤ 2 ∧
    (getTodos sampleStore emptyQuery 1 2).pagination.total_pages
        = (getTodos sampleStore emptyQuery 1 2).pagination.total ⌈/⌉
          (getTodos sampleStore emptyQuery 1 2).pagination.per_page :=
  ⟨by decide, (pagination_metadata sampleStore emptyQuery 1 2 (by decide)).2.1⟩

/-- Counterexample to C4 as stated: on the sample store (tasks 1 and 2
share `createdAt`), `ORDER BY createdAt DESC` permits the returned page
`[sampleTask3, sampleTask2, sampleTask]`, in which `sampleTask2` precedes
`sampleTask` despite the equal `createdAt` and the larger id — the query
names no tie-break, so the id-ascending stable tie order is not
guaranteed by the program. -/
theorem list_ordering_counterexample :
    isListResultOf sampleStore emptyQuery 1 10
      [sampleTask3, sampleTask2, sampleTask] ∧
    ¬ ([sampleTask3, sampleTask2, sampleTask].Pairwise listOrd) :=
  ⟨⟨[sampleTask3, sampleTask2, sampleTask], ⟨by decide, by decide⟩, by decide⟩,
   by decide⟩

/-- C4, amended: the executable embedding returns one of the enumerations
the `ORDER BY` permits, and every permitted returned sequence is ordered
by `createdAt` descending — for any two returned rows `a` before `b`,
`b.createdAt ≤ a.createdAt`.  The query orders only by `createdAt`, so no
relative order among rows with equal `createdAt` is guaranteed. -/
theorem list_ordering_amended (s : Store) (q : ListQuery) (page limit : Nat) :
    isListResultOf s q page limit (getTodos s q page limit).data ∧
    (∀ items, isListResultOf s q page limit items →
      items.Pairwise (fun a b => b.createdAt ≤ a.createdAt)) := by
  constructor
  · exact ⟨sortByCreatedDesc (s.todos.filter (matchesWhere q)),
      ⟨(perm_sortByCreatedDesc _).symm, sorted_sortByCreatedDesc _⟩, rfl⟩
  · rintro items ⟨m, ⟨_, hsorted⟩, rfl⟩
    exact hsorted.sublist ((List.take_sublist _ _).trans (List.drop_sublist _ _))

/-- Witness for the amended C4: the tie-swapped permitted page of the
sample store is non-increasing in `createdAt`. -/
theorem list_ordering_amended_witness :
    isListResultOf sampleStore emptyQuery 1 10
      [sampleTask3, sampleTask2, sampleTask] ∧
    ([sampleTask3, sampleTask2, sampleTask] : List Task).Pairwise
      (fun a b => b.createdAt ≤ a.createdAt) :=
  ⟨⟨[sampleTask3, sampleTask2, sampleTask], ⟨by decide, by decide⟩, by decide⟩,
   (list_ordering_amended sampleStore emptyQuery 1 10).2 _
     ⟨[sampleTask3, sampleTask2, sampleTask], ⟨by decide, by decide⟩, by decide⟩⟩

/-- C5: deleting a category fails with not-found exactly when no stored
category has the id; on success the category is gone, no task references
the deleted id any more, the set (and order) of task ids is unchanged,
every previously referencing task survives with `category_id = null`,
and non-referencing tasks are untouched. -/
theorem delete_category_cascade (s : Store) (cid : Nat) :
    (deleteCategory s cid = .error .notFound ↔ ∀ c ∈ s.categories, c.id ≠ cid) ∧
    (∀ s', deleteCategory s cid = .ok s' →
      (∀ c ∈ s'.categories, c.id ≠ cid) ∧
      (∀ t ∈ s'.todos, t.category_id ≠ some cid) ∧
      (s'.todos.map Task.id = s.todos.map Task.id) ∧
      (∀ t ∈ s.todos, t.category_id = some cid →
        ∃ t', t' ∈ s'.todos ∧ t'.id = t.id ∧ t'.category_id = none) ∧
      (∀ t ∈ s.todos, t.category_id ≠ some cid → t ∈ s'.todos)) := by
  constructor
  · cases hf : s.categories.find? (fun c => c.id == cid) with
    | none =>
        simp only [deleteCategory, hf]
        simpa using List.find?_eq_none.mp hf
    | some c =>
        simp only [deleteCategory, hf]
        constructor
        · intro h; cases h
        · intro h
          exact absurd (by simpa using List.find?_some hf)
            (by exact h c (List.mem_of_find?_eq_some hf))
  · intro s' hok
    cases hf : s.categories.find? (fun c => c.id == cid) with
    | none => simp [deleteCategory, hf] at hok
    | some c =>
        simp only [deleteCategory, hf, Except.ok.injEq] at hok
        subst hok
        refine ⟨?_, ?_, ?_, ?_, ?_⟩
        · intro c' hc'
          simp only [List.mem_filter] at hc'
          simpa using hc'.2
        · intro t ht
          simp only [List.mem_map] at ht
          obtain ⟨t0, _, rfl⟩ := ht
          by_cases h0 : t0.category_id = some cid <;> simp [h0]
        · rw [List.map_map]
          refine List.map_congr_left ?_
          intro t _
          by_cases h0 : t.category_id = some cid <;> simp [h0]
        · intro t ht h0
          refine ⟨{ t with category_id := none }, ?_, rfl, rfl⟩
          have : (fun t0 => if t0.category_id == some cid
              then { t0 with category_id := none } else t0) t
              = { t with category_id := none } := by simp [h0]
          rw [← this]
          exact List.mem_map_of_mem _ ht
        · intro t ht h0
          have : (fun t0 => if t0.category_id == some cid
              then { t0 with category_id := none } else t0) t = t := by simp [h0]
          rw [← this]
          exact List.mem_map_of_mem _ ht

/-- Witness for C5: deleting category 1 of the sample store nulls both
referencing tasks and keeps the task-id sequence. -/
theorem delete_category_cascade_witness :
    deleteCategory sampleStore 1 = .ok sampleCascadeStore ∧
    sampleCascadeStore.todos.map Task.id = sampleStore.todos.map Task.id :=
  ⟨by decide, ((delete_category_cascade sampleStore 1).2 _ (by decide)).2.2.1⟩

/-- C6: updating a task fails with not-found exactly when no stored task
has the id; on success the stored row with that id is the merge of the
old row and the payload: every absent field keeps its stored value and
every supplied field takes the supplied value (`completed` is set, not
toggled). -/
theorem update_todo_merge (s : Store) (id : Nat) (u : TodoUpdate) :
    (updateTodo s id u = .error .notFound ↔ ∀ t ∈ s.todos, t.id ≠ id) ∧
    (∀ s', updateTodo s id u = .ok s' →
      ∀ t ∈ s.todos, t.id = id →
        ∃ t', t' ∈ s'.todos ∧ t'.id = t.id ∧
          (u.title = none → t'.title = t.title) ∧
          (∀ v, u.title = some v → t'.title = v) ∧
          (u.description = none → t'.description = t.description) ∧
          (∀ v, u.description = some v → t'.description = v) ∧
          (u.category_id = none → t'.category_id = t.category_id) ∧
          (∀ v, u.category_id = some v → t'.category_id = v) ∧
          (u.priority = none → t'.priority = t.priority) ∧
          (∀ v, u.priority = some v → t'.priority = v) ∧
          (u.due_date = none → t'.due_date = t.due_date) ∧
          (∀ v, u.due_date = some v → t'.due_date = v) ∧
          (u.completed = none → t'.completed = t.completed) ∧
          (∀ v, u.completed = some v → t'.completed = v)) := by
  constructor
  · cases hf : s.todos.find? (fun t => t.id == id) with
    | none =>
        simp only [updateTodo, hf]
        simpa using List.find?_eq_none.mp hf
    | some t0 =>
        simp only [updateTodo, hf]
        constructor
        · intro h; cases h
        · intro h
          exact absurd (by simpa using List.find?_some hf)
            (by exact h t0 (List.mem_of_find?_eq_some hf))
  · intro s' hok t ht hid
    cases hf : s.todos.find? (fun t => t.id == id) with
    | none => simp [updateTodo, hf] at hok
    | some t0 =>
        simp only [updateTodo, hf, Except.ok.injEq] at hok
        subst hok
        refine ⟨applyTodoUpdate t u, ?_, by simp [applyTodoUpdate],
          fun h => by simp [applyTodoUpdate, h],
          fun v h => by simp [applyTodoUpdate, h],
          fun h => by simp [applyTodoUpdate, h],
          fun v h => by simp [applyTodoUpdate, h],
          fun h => by simp [applyTodoUpdate, h],
          fun v h => by simp [applyTodoUpdate, h],
          fun h => by simp [applyTodoUpdate, h],
          fun v h => by simp [applyTodoUpdate, h],
          fun h => by simp [applyTodoUpdate, h],
          fun v h => by simp [applyTodoUpdate, h],
          fun h => by simp [applyTodoUpdate, h],
          fun v h => by simp [applyTodoUpdate, h]⟩
        have : (fun t1 => if t1.id == id then applyTodoUpdate t1 u else t1) t
            = applyTodoUpdate t u := by simp [hid]
        rw [← this]
        exact List.mem_map_of_mem _ ht

/-- Witness for C6: patching task 1's priority to `low` leaves every
other field in place and sets the supplied one. -/
theorem update_todo_merge_witness :
    updateTodo sampleStore 1 samplePatch = .ok samplePatchedStore ∧
    ∃ t', t' ∈ samplePatchedStore.todos ∧ t'.id = sampleTask.id ∧
      t'.priority = "low" ∧ t'.title = sampleTask.title ∧
      t'.completed = sampleTask.completed := by
  refine ⟨by decide, ?_⟩
  obtain ⟨t', hmem, hid, htN, _, _, _, _, _, _, hpS, _, _, hcN, _⟩ :=
    (update_todo_merge sampleStore 1 samplePatch).2 samplePatchedStore (by decide)
      sampleTask (by decide) rfl
  exact ⟨t', hmem, hid, hpS "low" rfl, htN rfl, hcN rfl⟩

/-- C7: creating a category whose name exactly (case-sensitively) equals
an existing one fails with the duplicate error; a fresh name is stored;
an update that changes the name to a colliding one fails with the
duplicate error; an update resubmitting the category's own name is never
rejected as a self-collision. -/
theorem category_name_uniqueness (s : Store) (nm : String) (col : Option String)
    (cid : Nat) (unm ucol : Option String) :
    ((∃ c ∈ s.categories, c.name = nm) → createCategory s nm col = .error .duplicate) ∧
    ((∀ c ∈ s.categories, c.name ≠ nm) →
      ∃ s', createCategory s nm col = .ok s' ∧
        ∃ c', c' ∈ s'.categories ∧ c'.name = nm) ∧
    (∀ cat, s.categories.find? (fun c => c.id == cid) = some cat →
      ∀ n, unm = some n → n ≠ "" → n ≠ cat.name →
        (∃ c ∈ s.categories, c.name = n) →
        updateCategory s cid unm ucol = .error .duplicate) ∧
    (∀ cat, s.categories.find? (fun c => c.id == cid) = some cat →
      unm = some cat.name →
        updateCategory s cid unm ucol ≠ .error .duplicate) := by
  refine ⟨?_, ?_, ?_, ?_⟩
  · intro ⟨c, hc, hname⟩
    cases hf : s.categories.find? (fun c => c.name == nm) with
    | none =>
        exact absurd (by simpa using hname)
          (by simpa using List.find?_eq_none.mp hf c hc)
    | some _ => simp [createCategory, hf]
  · intro h
    have hf : s.categories.find? (fun c => c.name == nm) = none :=
      List.find?_eq_none.mpr (fun c hc => by simpa using h c hc)
    refine ⟨{ s with categories := s.categories ++
        [{ id := nextCategoryId s, name := nm, color := jsOrStr col "#1890ff" }] },
      ?_, ?_⟩
    · simp [createCategory, hf]
    · exact ⟨_, List.mem_append_right _ (List.mem_singleton_self _), rfl⟩
  · intro cat hfind n hn hne hneq ⟨c, hc, hname⟩
    subst hn
    have hf2 : (s.categories.find? (fun c => c.name == n)).isSome :=
      List.find?_isSome.mpr ⟨c, hc, by simpa using hname⟩
    simp [updateCategory, hfind, hne, hneq, hf2]
  · intro cat hfind hn hdup
    subst hn
    simp [updateCategory, hfind] at hdup

/-- Witness for C7: recreating `Work` is a duplicate, while renaming
category 1 to its own name `Work` is not rejected. -/
theorem category_name_uniqueness_witness :
    (∃ c ∈ sampleStore.categories, c.name = "Work") ∧
    createCategory sampleStore "Work" none = .error .duplicate ∧
    updateCategory sampleStore 1 (some "Work") none ≠ .error .duplicate := by
  refine ⟨⟨{ id := 1, name := "Work", color := "#0000ff" }, by decide, rfl⟩, ?_, ?_⟩
  · exact (category_name_uniqueness sampleStore "Work" none 1 (some "Work") none).1
      ⟨{ id := 1, name := "Work", color := "#0000ff" }, by decide, rfl⟩
  · exact (category_name_uniqueness sampleStore "Work" none 1 (some "Work") none).2.2.2
      { id := 1, name := "Work", color := "#0000ff" } (by decide) rfl

/-- C9: toggling fails with not-found exactly when no stored task has the
id; on success the row's `completed` is replaced by its negation, and
toggling the resulting store again restores the original store exactly. -/
theorem toggle_involution (s : Store) (id : Nat) :
    (toggleTodoComplete s id = .error .notFound ↔ ∀ t ∈ s.todos, t.id ≠ id) ∧
    (∀ s', toggleTodoComplete s id = .ok s' →
      (∀ t ∈ s.todos, t.id = id →
        ∃ t', t' ∈ s'.todos ∧ t'.id = t.id ∧ t'.completed = !t.completed) ∧
      toggleTodoComplete s' id = .ok s) := by
  constructor
  · cases hf : s.todos.find? (fun t => t.id == id) with
    | none =>
        simp only [toggleTodoComplete, hf]
        simpa using List.find?_eq_none.mp hf
    | some t0 =>
        simp only [toggleTodoComplete, hf]
        constructor
        · intro h; cases h
        · intro h
          exact absurd (by simpa using List.find?_some hf)
            (by exact h t0 (List.mem_of_find?_eq_some hf))
  · intro s' hok
    cases hf : s.todos.find? (fun t => t.id == id) with
    | none => simp [toggleTodoComplete, hf] at hok
    | some t0 =>
        simp only [toggleTodoComplete, hf, Except.ok.injEq] at hok
        subst hok
        constructor
        · intro t ht hid
          refine ⟨toggleRow id t, ?_, toggleRow_id id t, ?_⟩
          · exact List.mem_map_of_mem _ ht
          · unfold toggleRow
            rw [if_pos (by simpa using hid)]
        · have hcomp : ((fun t : Task => t.id == id) ∘ toggleRow id)
              = fun t : Task => t.id == id := by
            funext t
            simp [Function.comp, toggleRow_id]
          have hfind2 : (s.todos.map (toggleRow id)).find? (fun t => t.id == id)
              = some (toggleRow id t0) := by
            rw [List.find?_map, hcomp, hf]
            rfl
          simp only [toggleTodoComplete, hfind2]
          congr 1
          rw [List.map_map]
          have hmap : s.todos.map (toggleRow id ∘ toggleRow id)
              = s.todos.map (fun t => t) :=
            List.map_congr_left (fun t _ => toggleRow_involutive id t)
          rw [hmap]
          have : s.todos.map (fun t => t) = s.todos := List.map_id' s.todos
          rw [this]

/-- Witness for C9: toggling task 1 clears its `completed`, and toggling
again restores the sample store exactly. -/
theorem toggle_involution_witness :
    toggleTodoComplete sampleStore 1 = .ok sampleToggledStore ∧
    toggleTodoComplete sampleToggledStore 1 = .ok sampleStore :=
  ⟨by decide,
    ((toggle_involution sampleStore 1).2 sampleToggledStore (by decide)).2⟩

/-- C10: whatever the request body holds — including a supplied
`completed` value, which `createTodo` never reads — the created task is
stored with `completed = false`, and the only row the operation adds is
that task. -/
theorem create_completed_false (s : Store) (b : TodoCreate) (now : Nat) :
    (createTodo s b now).2.completed = false ∧
    (createTodo s b now).2 ∈ (createTodo s b now).1.todos ∧
    ∀ t ∈ (createTodo s b now).1.todos, t ∈ s.todos ∨ t = (createTodo s b now).2 := by
  refine ⟨rfl, ?_, ?_⟩
  · simp [createTodo]
  · intro t ht
    simp only [createTodo, List.mem_append, List.mem_singleton] at ht
    exact ht

/-- Witness for C10: the sample create request stores `completed = false`
and adds only the created task. -/
theorem create_completed_false_witness :
    (createTodo sampleStore sampleCreate 9).2.completed = false ∧
    (sampleCreatedTask ∈ sampleStore.todos ∨
      sampleCreatedTask = (createTodo sampleStore sampleCreate 9).2) :=
  ⟨(create_completed_false sampleStore sampleCreate 9).1,
   (create_completed_false sampleStore sampleCreate 9).2.2 sampleCreatedTask (by decide)⟩

/-- C8 (store modelled from the spec): a create or update that the
foreign-key-checked store accepts leaves the touched row's supplied
non-null `category_id` referencing an existing category. -/
theorem referential_integrity (s : Store) (b : TodoCreate) (now : Nat)
    (id : Nat) (u : TodoUpdate) :
    (∀ s2 t, createTodoFk s b now = some (s2, t) →
      ∀ c, b.category_id = some c →
        t.category_id = some c ∧ ∃ cat ∈ s2.categories, cat.id = c) ∧
    (∀ s2, updateTodoFk s id u = some (.ok s2) →
      ∀ t ∈ s.todos, t.id = id →
        ∀ c, u.category_id = some (some c) →
          ∃ t', t' ∈ s2.todos ∧ t'.id = t.id ∧ t'.category_id = some c ∧
            ∃ cat ∈ s2.categories, cat.id = c) := by
  constructor
  · intro s2 t hcreate c hc
    by_cases hfk : fkAccepts s b.category_id = true
    · simp only [createTodoFk, if_pos hfk, Option.some.injEq] at hcreate
      have hs2 : s2 = (createTodo s b now).1 := by rw [hcreate]
      have ht : t = (createTodo s b now).2 := by rw [hcreate]
      subst hs2; subst ht
      refine ⟨by simp [createTodo, hc], ?_⟩
      have : s.categories.any (fun cat => cat.id == c) = true := by
        simpa [fkAccepts, hc] using hfk
      obtain ⟨cat, hcat, hcid⟩ := List.any_eq_true.mp this
      exact ⟨cat, by simpa [createTodo] using hcat, by simpa using hcid⟩
    · simp [createTodoFk, hfk] at hcreate
  · intro s2 hupd t ht hid c hc
    cases hf : s.todos.find? (fun t => t.id == id) with
    | none => simp [updateTodoFk, hf] at hupd
    | some t0 =>
        by_cases hfk : fkAccepts s (applyTodoUpdate t0 u).category_id = true
        · simp only [updateTodoFk, hf, if_pos hfk, Option.some.injEq] at hupd
          have hok : updateTodo s id u = .ok s2 := hupd
          simp only [updateTodo, hf, Except.ok.injEq] at hok
          subst hok
          refine ⟨applyTodoUpdate t u, ?_, by simp [applyTodoUpdate],
            by simp [applyTodoUpdate, hc], ?_⟩
          · have : (fun t1 => if t1.id == id then applyTodoUpdate t1 u else t1) t
                = applyTodoUpdate t u := by simp [hid]
            rw [← this]
            exact List.mem_map_of_mem _ ht
          · have hcid0 : (applyTodoUpdate t0 u).category_id = some c := by
              simp [applyTodoUpdate, hc]
            rw [hcid0] at hfk
            have : s.categories.any (fun cat => cat.id == c) = true := by
              simpa [fkAccepts] using hfk
            obtain ⟨cat, hcat, hcid⟩ := List.any_eq_true.mp this
            exact ⟨cat, hcat, by simpa using hcid⟩
        · simp [updateTodoFk, hf, hfk] at hupd

/-- Witness for C8: inserting a task referencing category 1 through the
foreign-key-checked store succeeds and the reference resolves. -/
theorem referential_integrity_witness :
    createTodoFk sampleStore sampleCreate 9 = some (sampleCreatedStore, sampleCreatedTask) ∧
    sampleCreate.category_id = some 1 ∧
    sampleCreatedTask.category_id = some 1 ∧
    ∃ cat ∈ sampleCreatedStore.categories, cat.id = 1 := by
  refine ⟨by decide, rfl, ?_, ?_⟩
  · exact ((referential_integrity sampleStore sampleCreate 9 0 samplePatch).1
      sampleCreatedStore sampleCreatedTask (by decide) 1 rfl).1
  · exact ((referential_integrity sampleStore sampleCreate 9 0 samplePatch).1
      sampleCreatedStore sampleCreatedTask (by decide) 1 rfl).2

end TodoApp
